import Mathlib

set_option linter.unusedVariables false
set_option linter.unnecessarySeqFocus false

/-! Shallow embedding of the order-book engine of `src/lib.rs`.

`BTreeSet<Order>` is modelled as a strictly `Order.cmp`-ascending list
(`btInsert` / `btRemove` mirror `BTreeSet::insert` / `BTreeSet::remove`:
insertion keeps the stored element when an `Ordering::Equal` element is
already present, removal deletes the first `Ordering::Equal` element).
The two `HashMap`s are modelled as functions into `Option`.
`usize` values are `Nat`; `usize::MAX` appears explicitly where the code
uses it. -/

/-- Side of the order (`enum Side`). -/
inductive Side
  | Buy
  | Sell
  deriving DecidableEq, Repr

/-- Rust `Side::new`: 'B' denotes buy, 'S' denotes sell, anything else is none. -/
def Side.new (side : Char) : Option Side :=
  if side = 'B' then some .Buy
  else if side = 'S' then some .Sell
  else none

/-- Rust `impl Not for Side`. -/
def Side.not : Side → Side
  | .Buy => .Sell
  | .Sell => .Buy

/-- Rust `impl From<char> for Side` is `Self::new(side).unwrap()`; the panic of
`unwrap` on the `None` branch is modelled as `none`. -/
def Side.fromChar (side : Char) : Option Side :=
  match Side.new side with
  | some s => some s
  | none => none

/-- Rust `struct Order`. -/
structure Order where
  user_id : Nat
  order_id : Nat
  price : Nat
  volume : Nat
  side : Side
  deriving DecidableEq, Repr

/-- Rust `Order::new` (argument order as in the source). -/
def Order.new (side : Side) (user_id order_id price volume : Nat) : Order :=
  ⟨user_id, order_id, price, volume, side⟩

/-- Rust `usize::partial_cmp` on `Nat` (always defined, so the `Option` is dropped). -/
def natCmp (a b : Nat) : Ordering :=
  if a < b then .lt else if a = b then .eq else .gt

/-- Rust `Order::prices_cmp` (total: on `usize` `partial_cmp` is always `Some`). -/
def Order.prices_cmp (a b : Order) : Ordering :=
  if a.price ≠ b.price then natCmp a.price b.price
  else if a.volume ≠ b.volume then natCmp a.volume b.volume
  else
    match a.side with
    | .Buy => natCmp b.order_id a.order_id
    | .Sell => natCmp a.order_id b.order_id

/-- Rust `impl PartialOrd/Ord for Order` (`partial_cmp` is always `Some`, and
`cmp` unwraps it). -/
def Order.cmp (a b : Order) : Ordering :=
  match a.side, b.side with
  | .Buy, .Buy => a.prices_cmp b
  | .Buy, .Sell => .gt
  | .Sell, .Buy => .lt
  | .Sell, .Sell => a.prices_cmp b

/-- Rust `enum LogEntry`. -/
inductive LogEntry
  | Acknowledge (user_id order_id : Nat)
  | Reject (user_id order_id : Nat)
  | TopOfBook (side : Option Side) (price volume : Nat)
  | SideElimination (side : Side)
  | Trade (user_id_buy order_id_buy user_id_sell order_id_sell price volume : Nat)
  deriving DecidableEq, Repr

/-- Rust `BTreeSet::insert` on the ascending-list model: an `Ordering::Equal`
element already present is kept and the new value dropped. -/
def btInsert (o : Order) : List Order → List Order
  | [] => [o]
  | x :: xs =>
    match o.cmp x with
    | .lt => o :: x :: xs
    | .eq => x :: xs
    | .gt => x :: btInsert o xs

/-- Rust `BTreeSet::remove` on the ascending-list model: the first
`Ordering::Equal` element is removed. -/
def btRemove (o : Order) : List Order → List Order
  | [] => []
  | x :: xs =>
    match o.cmp x with
    | .lt => x :: xs
    | .eq => xs
    | .gt => x :: btRemove o xs

/-- Rust `struct OrderBookEntry`. -/
structure OrderBookEntry where
  orders : List Order
  log : List LogEntry
  deriving DecidableEq, Repr

/-- Rust `OrderBookEntry::new`. -/
def OrderBookEntry.new : OrderBookEntry := ⟨[], []⟩

/-- Rust `struct OrderBook`; both `HashMap`s are modelled as functions. -/
structure OrderBook where
  order_book : String → Option OrderBookEntry
  index : Nat × Nat → Option (String × Order)

/-- Rust `OrderBook::new`. -/
def OrderBook.new : OrderBook := ⟨fun _ => none, fun _ => none⟩

/-- Rust `usize::MAX`. -/
def usizeMax : Nat := 2 ^ 64 - 1

/-- Rust `OrderBook::total_volume`: one pass over the same-user same-price
prefix, accumulating (total volume, minimum order id); the minimum starts
at `usize::MAX` as in the source. -/
def total_volume (l : List Order) (user_id price : Nat) : Nat × Nat :=
  (l.takeWhile fun x => x.user_id == user_id && x.price == price).foldl
    (fun acc x =>
      (acc.1 + x.volume, if x.order_id < acc.2 then x.order_id else acc.2))
    (0, usizeMax)

/-- Rust `OrderBook::top`. -/
def OrderBook.top (b : OrderBook) (side : Side) (symbol : String) : Option Order :=
  match b.order_book symbol with
  | none => none
  | some order_entry =>
    let order :=
      match side with
      | .Buy => order_entry.orders.getLast?
      | .Sell => order_entry.orders.head?
    match order with
    | none => none
    | some o =>
      if o.side = side then
        let vi :=
          match side with
          | .Sell => total_volume order_entry.orders o.user_id o.price
          | .Buy => total_volume order_entry.orders.reverse o.user_id o.price
        some { o with volume := vi.1, order_id := vi.2 }
      else none

/-- Rust `OrderBook::get_logs`. -/
def OrderBook.get_logs (b : OrderBook) (symbol : String) : Option (List LogEntry) :=
  match b.order_book symbol with
  | none => none
  | some order_entry => some order_entry.log

/-- Store an entry under a symbol (a `HashMap` write). -/
def OrderBook.setEntry (b : OrderBook) (symbol : String) (e : OrderBookEntry) : OrderBook :=
  { b with order_book := fun s => if s = symbol then some e else b.order_book s }

/-- Rust `OrderBook::log_top_of_book`. The `get_mut(symbol).unwrap()` cannot
panic at either call site (the entry always exists there); the `none`
branch returns the book unchanged to keep the function total. -/
def OrderBook.log_top_of_book (b : OrderBook) (symbol : String)
    (old_top new_top : Option Order) : OrderBook :=
  match b.order_book symbol with
  | none => b
  | some order_book =>
    match new_top with
    | none =>
      b.setEntry symbol
        { order_book with log := order_book.log ++ [.TopOfBook none 0 0] }
    | some nt =>
      match old_top with
      | none =>
        b.setEntry symbol
          { order_book with log := order_book.log ++ [.TopOfBook (some nt.side) nt.price nt.volume] }
      | some ot =>
        if ot ≠ nt then
          b.setEntry symbol
            { order_book with log := order_book.log ++ [.TopOfBook (some nt.side) nt.price nt.volume] }
        else b

/-- Rust `OrderBook::add`. -/
def OrderBook.add (b : OrderBook) (symbol : String) (order : Order) : OrderBook :=
  let top := b.top order.side symbol
  let other_top := b.top order.side.not symbol
  let order_book := (b.order_book symbol).getD OrderBookEntry.new
  let crossed : Bool :=
    match top, other_top with
    | some t, some ot =>
      match t.side with
      | .Sell => decide (ot.price ≥ order.price)
      | .Buy => decide (order.price ≥ ot.price)
    | _, _ => false
  if crossed then
    b.setEntry symbol
      { order_book with log := order_book.log ++ [.Reject order.user_id order.order_id] }
  else
    let entry :=
      { order_book with
          log := order_book.log ++ [.Acknowledge order.user_id order.order_id],
          orders := btInsert order order_book.orders }
    let b1 : OrderBook :=
      { order_book := fun s => if s = symbol then some entry else b.order_book s,
        index := fun k =>
          if k = (order.user_id, order.order_id) then some (symbol, order) else b.index k }
    let new_top := b1.top order.side symbol
    b1.log_top_of_book symbol top new_top

/-- Rust `OrderBook::cancel`. The `get_mut(&symbol).unwrap()` cannot panic on
states reachable through the API (the index only ever points at symbols
whose entry exists); `getD` keeps the function total. -/
def OrderBook.cancel (b : OrderBook) (user_id order_id : Nat) : OrderBook :=
  match b.index (user_id, order_id) with
  | none => b
  | some (symbol, order) =>
    let b1 : OrderBook :=
      { b with index := fun k => if k = (user_id, order_id) then none else b.index k }
    let old_top := b1.top order.side symbol
    let order_book := (b1.order_book symbol).getD OrderBookEntry.new
    let b2 :=
      b1.setEntry symbol
        { order_book with
            orders := btRemove order order_book.orders,
            log := order_book.log ++ [.Acknowledge user_id order_id] }
    let new_top := b2.top order.side symbol
    b2.log_top_of_book symbol old_top new_top

/-- The resting orders of a symbol (empty when the symbol is unknown). -/
def OrderBook.bookOrders (b : OrderBook) (symbol : String) : List Order :=
  match b.order_book symbol with
  | none => []
  | some e => e.orders

/-! ### Lemmas about the order comparison -/

theorem natCmp_eq_lt {a b : Nat} : natCmp a b = .lt ↔ a < b := by
  unfold natCmp; split_ifs <;> simp_all

theorem natCmp_eq_eq {a b : Nat} : natCmp a b = .eq ↔ a = b := by
  unfold natCmp; split_ifs <;> simp_all <;> omega

theorem natCmp_eq_gt {a b : Nat} : natCmp a b = .gt ↔ b < a := by
  unfold natCmp; split_ifs <;> simp_all <;> omega

theorem natCmp_swap (a b : Nat) : natCmp a b = (natCmp b a).swap := by
  unfold natCmp; split_ifs <;> first | rfl | omega

theorem Order.prices_cmp_eq_iff (a b : Order) :
    a.prices_cmp b = .eq ↔ a.price = b.price ∧ a.volume = b.volume ∧ a.order_id = b.order_id := by
  unfold Order.prices_cmp
  cases a.side <;> split_ifs <;> simp only [natCmp_eq_eq] <;> omega

theorem Order.prices_cmp_lt_buy (a b : Order) (ha : a.side = .Buy) :
    a.prices_cmp b = .lt ↔
      a.price < b.price ∨ (a.price = b.price ∧
        (a.volume < b.volume ∨ (a.volume = b.volume ∧ b.order_id < a.order_id))) := by
  unfold Order.prices_cmp
  rw [ha]; split_ifs <;> simp only [natCmp_eq_lt] <;> omega

theorem Order.prices_cmp_lt_sell (a b : Order) (ha : a.side = .Sell) :
    a.prices_cmp b = .lt ↔
      a.price < b.price ∨ (a.price = b.price ∧
        (a.volume < b.volume ∨ (a.volume = b.volume ∧ a.order_id < b.order_id))) := by
  unfold Order.prices_cmp
  rw [ha]; split_ifs <;> simp only [natCmp_eq_lt] <;> omega

theorem Order.cmp_eq_iff (a b : Order) :
    a.cmp b = .eq ↔
      a.side = b.side ∧ a.price = b.price ∧ a.volume = b.volume ∧ a.order_id = b.order_id := by
  obtain ⟨ua, ia, pa, va, sa⟩ := a
  obtain ⟨ub, ib, pb, vb, sb⟩ := b
  cases sa <;> cases sb <;> simp [Order.cmp, Order.prices_cmp_eq_iff]

theorem Order.cmp_refl (a : Order) : a.cmp a = .eq :=
  (Order.cmp_eq_iff a a).mpr ⟨rfl, rfl, rfl, rfl⟩

theorem Order.cmp_swap (a b : Order) : a.cmp b = (b.cmp a).swap := by
  obtain ⟨ua, ia, pa, va, sa⟩ := a
  obtain ⟨ub, ib, pb, vb, sb⟩ := b
  cases sa <;> cases sb <;>
    simp only [Order.cmp, Order.prices_cmp] <;>
    first
      | rfl
      | (split_ifs <;> first | exact natCmp_swap _ _ | omega)

theorem Order.cmp_lt_iff_gt (a b : Order) : a.cmp b = .lt ↔ b.cmp a = .gt := by
  rw [Order.cmp_swap a b]
  cases b.cmp a <;> simp [Ordering.swap]

theorem Order.cmp_ne_eq_symm {a b : Order} (h : a.cmp b ≠ .eq) : b.cmp a ≠ .eq := by
  intro hc
  rw [Order.cmp_eq_iff] at hc
  exact h ((Order.cmp_eq_iff a b).mpr
    ⟨hc.1.symm, hc.2.1.symm, hc.2.2.1.symm, hc.2.2.2.symm⟩)

theorem Order.cmp_trans {a b c : Order} (h1 : a.cmp b = .lt) (h2 : b.cmp c = .lt) :
    a.cmp c = .lt := by
  obtain ⟨ua, ia, pa, va, sa⟩ := a
  obtain ⟨ub, ib, pb, vb, sb⟩ := b
  obtain ⟨uc, ic, pc', vc, sc⟩ := c
  cases sa <;> cases sb <;> cases sc <;>
    simp only [Order.cmp] at h1 h2 ⊢ <;>
    first
      | rfl
      | exact absurd h1 (by decide)
      | exact absurd h2 (by decide)
      | (rw [Order.prices_cmp_lt_buy _ _ rfl] at h1 h2 ⊢; omega)
      | (rw [Order.prices_cmp_lt_sell _ _ rfl] at h1 h2 ⊢; omega)

/-! ### The spec's reference comparison (§3 of the spec) -/

/-- Reference relation following the spec's words: every Sell compares
less than every Buy; within one side ascending price, then ascending
volume, then the side-dependent `order_id` tie-break (between Buys the
smaller id compares greater, between Sells the smaller id compares
smaller). -/
def specCmp (a b : Order) : Ordering :=
  match a.side, b.side with
  | .Sell, .Buy => .lt
  | .Buy, .Sell => .gt
  | .Buy, .Buy =>
    (natCmp a.price b.price).then
      ((natCmp a.volume b.volume).then (natCmp b.order_id a.order_id))
  | .Sell, .Sell =>
    (natCmp a.price b.price).then
      ((natCmp a.volume b.volume).then (natCmp a.order_id b.order_id))

theorem natCmp_self (a : Nat) : natCmp a a = .eq := by unfold natCmp; simp

theorem ite_ne_natCmp (x y : Nat) (o : Ordering) :
    (if x ≠ y then natCmp x y else o) = (natCmp x y).then o := by
  split_ifs with h
  · rcases hc : natCmp x y with _ | _ | _
    · rfl
    · rw [natCmp_eq_eq] at hc; exact absurd hc h
    · rfl
  · push_neg at h
    subst h
    rw [natCmp_self]
    rfl

theorem Order.prices_cmp_then (a b : Order) :
    a.prices_cmp b =
      (natCmp a.price b.price).then ((natCmp a.volume b.volume).then
        (match a.side with
         | .Buy => natCmp b.order_id a.order_id
         | .Sell => natCmp a.order_id b.order_id)) := by
  unfold Order.prices_cmp
  rw [ite_ne_natCmp, ite_ne_natCmp]

/-- C8: the comparison on `Order` equals the spec's reference relation:
Sell < Buy always, and within one side ascending price, then ascending
volume, then the side-dependent order-id tie-break. -/
theorem cmp_eq_specCmp (a b : Order) : a.cmp b = specCmp a b := by
  obtain ⟨ua, ia, pa, va, sa⟩ := a
  obtain ⟨ub, ib, pb, vb, sb⟩ := b
  cases sa <;> cases sb <;>
    simp only [Order.cmp, specCmp] <;>
    first
      | rfl
      | rw [Order.prices_cmp_then]

/-- C3 counterexample: two distinct `Order` values (differing only in
`user_id`) compare `Equal`, refuting that `cmp` never returns `Equal`
on distinct orders. -/
theorem cmp_eq_distinct_orders :
    Order.cmp ⟨1, 5, 10, 10, .Buy⟩ ⟨2, 5, 10, 10, .Buy⟩ = .eq ∧
    (⟨1, 5, 10, 10, .Buy⟩ : Order) ≠ ⟨2, 5, 10, 10, .Buy⟩ := by decide

/-- C3 (amended): `cmp` is antisymmetric and transitive, and it returns
`Equal` exactly when the two orders agree on `side`, `price`, `volume`
and `order_id` — so it never collapses orders that differ in any of
those four fields, but it does ignore `user_id`. -/
theorem cmp_strict_total_on_key_fields (a b c : Order) :
    (a.cmp b = .eq ↔
      a.side = b.side ∧ a.price = b.price ∧ a.volume = b.volume ∧ a.order_id = b.order_id) ∧
    (a.cmp b = .lt ↔ b.cmp a = .gt) ∧
    (a.cmp b = .lt → b.cmp c = .lt → a.cmp c = .lt) :=
  ⟨Order.cmp_eq_iff a b, Order.cmp_lt_iff_gt a b, fun h1 h2 => Order.cmp_trans h1 h2⟩

theorem cmp_strict_total_on_key_fields_witness :
    Order.cmp ⟨1, 1, 5, 5, .Sell⟩ ⟨1, 2, 6, 5, .Sell⟩ = .lt ∧
    Order.cmp ⟨1, 2, 6, 5, .Sell⟩ ⟨1, 3, 7, 5, .Buy⟩ = .lt ∧
    Order.cmp ⟨1, 1, 5, 5, .Sell⟩ ⟨1, 3, 7, 5, .Buy⟩ = .lt :=
  ⟨by decide, by decide,
    (cmp_strict_total_on_key_fields ⟨1, 1, 5, 5, .Sell⟩ ⟨1, 2, 6, 5, .Sell⟩
      ⟨1, 3, 7, 5, .Buy⟩).2.2 (by decide) (by decide)⟩

/-- C10: `Side::from(char)` (i.e. `Side::new(c).unwrap()`) yields Buy for
'B' and Sell for 'S' but reaches the `unwrap` failure branch for every
other character, while `Side::new` itself returns none there. -/
theorem side_fromChar_partial :
    Side.fromChar 'B' = some Side.Buy ∧ Side.fromChar 'S' = some Side.Sell ∧
    ∀ c : Char, c ≠ 'B' → c ≠ 'S' → Side.fromChar c = none ∧ Side.new c = none := by
  refine ⟨rfl, rfl, fun c hB hS => ?_⟩
  have h : Side.new c = none := by simp [Side.new, hB, hS]
  exact ⟨by simp [Side.fromChar, h], h⟩

theorem side_fromChar_partial_witness :
    (('T' : Char) ≠ 'B' ∧ ('T' : Char) ≠ 'S') ∧
    (Side.fromChar 'T' = none ∧ Side.new 'T' = none) :=
  ⟨⟨by decide, by decide⟩, side_fromChar_partial.2.2 'T' (by decide) (by decide)⟩

/-! ### The ordered-set model: sortedness and membership -/

/-- Strict ascending sortedness by the book comparison — the `BTreeSet`
iteration-order invariant. -/
def SortedBook (l : List Order) : Prop :=
  List.Pairwise (fun a b => a.cmp b = .lt) l

theorem btInsert_subset {y o : Order} :
    ∀ {l : List Order}, y ∈ btInsert o l → y = o ∨ y ∈ l := by
  intro l
  induction l with
  | nil => intro h; simp [btInsert] at h; exact Or.inl h
  | cons x xs ih =>
    intro h
    unfold btInsert at h
    rcases hc : o.cmp x with _ | _ | _ <;> rw [hc] at h
    · rcases List.mem_cons.mp h with h' | h'
      · exact Or.inl h'
      · exact Or.inr h'
    · exact Or.inr h
    · rcases List.mem_cons.mp h with h' | h'
      · exact Or.inr (h' ▸ List.mem_cons_self x xs)
      · rcases ih h' with h'' | h''
        · exact Or.inl h''
        · exact Or.inr (List.mem_cons_of_mem x h'')

theorem btInsert_mem_of_mem {y o : Order} :
    ∀ {l : List Order}, y ∈ l → y ∈ btInsert o l := by
  intro l
  induction l with
  | nil => intro h; cases h
  | cons x xs ih =>
    intro h
    unfold btInsert
    rcases hc : o.cmp x with _ | _ | _
    · exact List.mem_cons_of_mem o h
    · exact h
    · rcases List.mem_cons.mp h with h' | h'
      · exact h' ▸ List.mem_cons_self x _
      · exact List.mem_cons_of_mem x (ih h')

theorem btInsert_self_mem {o : Order} :
    ∀ {l : List Order}, (∀ x ∈ l, o.cmp x ≠ .eq) → o ∈ btInsert o l := by
  intro l
  induction l with
  | nil => intro _; simp [btInsert]
  | cons x xs ih =>
    intro hne
    unfold btInsert
    rcases hc : o.cmp x with _ | _ | _
    · exact List.mem_cons_self o _
    · exact absurd hc (hne x (List.mem_cons_self x xs))
    · exact List.mem_cons_of_mem x (ih fun z hz => hne z (List.mem_cons_of_mem x hz))

theorem btInsert_mem_iff {y o : Order} {l : List Order}
    (hne : ∀ x ∈ l, o.cmp x ≠ .eq) : y ∈ btInsert o l ↔ y = o ∨ y ∈ l := by
  constructor
  · exact btInsert_subset
  · rintro (rfl | h)
    · exact btInsert_self_mem hne
    · exact btInsert_mem_of_mem h

theorem btInsert_sorted {o : Order} :
    ∀ {l : List Order}, SortedBook l → SortedBook (btInsert o l) := by
  intro l
  induction l with
  | nil => intro _; simp [btInsert, SortedBook]
  | cons x xs ih =>
    intro hs
    rw [SortedBook, List.pairwise_cons] at hs
    obtain ⟨hx, hxs⟩ := hs
    unfold btInsert
    rcases hc : o.cmp x with _ | _ | _
    · rw [SortedBook, List.pairwise_cons]
      refine ⟨?_, List.pairwise_cons.mpr ⟨hx, hxs⟩⟩
      intro y hy
      rcases List.mem_cons.mp hy with h' | h'
      · exact h' ▸ hc
      · exact Order.cmp_trans hc (hx y h')
    · exact List.pairwise_cons.mpr ⟨hx, hxs⟩
    · rw [SortedBook, List.pairwise_cons]
      refine ⟨?_, ih hxs⟩
      intro y hy
      rcases btInsert_subset hy with h' | h'
      · subst h'
        exact (Order.cmp_lt_iff_gt x y).mpr hc
      · exact hx y h'

theorem btRemove_sublist (o : Order) :
    ∀ l : List Order, List.Sublist (btRemove o l) l := by
  intro l
  induction l with
  | nil => simp [btRemove]
  | cons x xs ih =>
    unfold btRemove
    rcases o.cmp x with _ | _ | _
    · exact List.Sublist.refl _
    · exact List.sublist_cons_self x xs
    · exact List.Sublist.cons₂ x ih

theorem btRemove_subset {y o : Order} {l : List Order}
    (h : y ∈ btRemove o l) : y ∈ l :=
  (btRemove_sublist o l).subset h

theorem btRemove_sorted {o : Order} {l : List Order}
    (hs : SortedBook l) : SortedBook (btRemove o l) :=
  List.Pairwise.sublist (btRemove_sublist o l) hs

theorem btRemove_mem_of_ne {y o : Order} :
    ∀ {l : List Order}, y ∈ l → o.cmp y ≠ .eq → y ∈ btRemove o l := by
  intro l
  induction l with
  | nil => intro h _; cases h
  | cons x xs ih =>
    intro h hne
    unfold btRemove
    rcases hc : o.cmp x with _ | _ | _
    · exact h
    · rcases List.mem_cons.mp h with h' | h'
      · exact absurd (h' ▸ hc) hne
      · exact h'
    · rcases List.mem_cons.mp h with h' | h'
      · exact h' ▸ List.mem_cons_self x _
      · exact List.mem_cons_of_mem x (ih h' hne)

theorem btRemove_self_not_mem {o : Order} :
    ∀ {l : List Order}, SortedBook l → o ∉ btRemove o l := by
  intro l
  induction l with
  | nil => intro _ h; cases h
  | cons x xs ih =>
    intro hs h
    rw [SortedBook, List.pairwise_cons] at hs
    obtain ⟨hx, hxs⟩ := hs
    unfold btRemove at h
    rcases hc : o.cmp x with _ | _ | _ <;> rw [hc] at h
    · rcases List.mem_cons.mp h with h' | h'
      · subst h'; rw [Order.cmp_refl] at hc; cases hc
      · have := hx o h'
        rw [(Order.cmp_lt_iff_gt x o).mp this] at hc
        cases hc
    · have := hx o h
      rw [(Order.cmp_lt_iff_gt x o).mp this] at hc
      cases hc
    · rcases List.mem_cons.mp h with h' | h'
      · subst h'; rw [Order.cmp_refl] at hc; cases hc
      · exact ih hxs h'

theorem sortedBook_cmp_ne {l : List Order} (hs : SortedBook l) {a b : Order}
    (ha : a ∈ l) (hb : b ∈ l) (hab : a ≠ b) : a.cmp b ≠ .eq := by
  have hsym : Symmetric fun a b : Order => a.cmp b ≠ .eq := fun x y h => Order.cmp_ne_eq_symm h
  have hp : List.Pairwise (fun a b : Order => a.cmp b ≠ .eq) l :=
    hs.imp fun h => by rw [h]; decide
  exact hp.forall hsym ha hb hab

/-! ### Engine-level helper lemmas -/

theorem OrderBook.setEntry_book_self (b : OrderBook) (sym : String) (e : OrderBookEntry) :
    (b.setEntry sym e).order_book sym = some e := by
  simp [OrderBook.setEntry]

theorem OrderBook.setEntry_book_ne (b : OrderBook) (sym : String) (e : OrderBookEntry)
    {S : String} (h : S ≠ sym) : (b.setEntry sym e).order_book S = b.order_book S := by
  simp [OrderBook.setEntry, h]

theorem OrderBook.setEntry_index (b : OrderBook) (sym : String) (e : OrderBookEntry) :
    (b.setEntry sym e).index = b.index := rfl

theorem OrderBook.log_top_index (b : OrderBook) (sym : String) (o n : Option Order) :
    (b.log_top_of_book sym o n).index = b.index := by
  unfold OrderBook.log_top_of_book
  split
  · rfl
  · split
    · rfl
    · split
      · rfl
      · split_ifs <;> rfl

theorem OrderBook.log_top_book_ne (b : OrderBook) (sym : String) (o n : Option Order)
    {S : String} (h : S ≠ sym) :
    (b.log_top_of_book sym o n).order_book S = b.order_book S := by
  unfold OrderBook.log_top_of_book
  split
  · rfl
  · split
    · exact b.setEntry_book_ne sym _ h
    · split
      · exact b.setEntry_book_ne sym _ h
      · split_ifs
        · exact b.setEntry_book_ne sym _ h
        · rfl

theorem OrderBook.log_top_book_orders (b : OrderBook) (sym : String) (o n : Option Order)
    (S : String) :
    ((b.log_top_of_book sym o n).order_book S).map OrderBookEntry.orders =
      (b.order_book S).map OrderBookEntry.orders := by
  by_cases hS : S = sym
  · subst hS
    unfold OrderBook.log_top_of_book
    split
    · rfl
    · rename_i e heq
      split
      · rw [b.setEntry_book_self, heq]; rfl
      · split
        · rw [b.setEntry_book_self, heq]; rfl
        · split_ifs
          · rw [b.setEntry_book_self, heq]; rfl
          · rfl
  · rw [b.log_top_book_ne sym o n hS]

/-- The log entries `log_top_of_book` appends (proof scaffolding). -/
def topTail (o n : Option Order) : List LogEntry :=
  match n with
  | none => [LogEntry.TopOfBook none 0 0]
  | some nt =>
    match o with
    | none => [LogEntry.TopOfBook (some nt.side) nt.price nt.volume]
    | some ot =>
      if ot ≠ nt then [LogEntry.TopOfBook (some nt.side) nt.price nt.volume] else []

theorem topTail_shape (o n : Option Order) :
    topTail o n = [] ∨ ∃ sd p v, topTail o n = [LogEntry.TopOfBook sd p v] := by
  cases n with
  | none => exact Or.inr ⟨none, 0, 0, rfl⟩
  | some nt =>
    cases o with
    | none => exact Or.inr ⟨some nt.side, nt.price, nt.volume, rfl⟩
    | some ot =>
      by_cases h : ot ≠ nt
      · rw [show topTail (some ot) (some nt) =
            [LogEntry.TopOfBook (some nt.side) nt.price nt.volume] from by simp [topTail, h]]
        exact Or.inr ⟨some nt.side, nt.price, nt.volume, rfl⟩
      · push_neg at h
        rw [show topTail (some ot) (some nt) = [] from by simp [topTail, h]]
        exact Or.inl rfl

theorem OrderBook.log_top_book_self (b : OrderBook) (sym : String) (o n : Option Order)
    {e : OrderBookEntry} (hb : b.order_book sym = some e) :
    (b.log_top_of_book sym o n).order_book sym = some { e with log := e.log ++ topTail o n } := by
  unfold OrderBook.log_top_of_book
  rw [hb]
  cases n with
  | none => exact b.setEntry_book_self sym _
  | some nt =>
    cases o with
    | none => exact b.setEntry_book_self sym _
    | some ot =>
      show (if ot ≠ nt
          then b.setEntry sym
            { e with log := e.log ++ [LogEntry.TopOfBook (some nt.side) nt.price nt.volume] }
          else b).order_book sym = _
      split_ifs with h
      · rw [show topTail (some ot) (some nt) =
            [LogEntry.TopOfBook (some nt.side) nt.price nt.volume] from by simp [topTail, h]]
        exact b.setEntry_book_self sym _
      · push_neg at h
        rw [hb, show topTail (some ot) (some nt) = [] from by simp [topTail, h],
          List.append_nil]

theorem OrderBook.log_top_log_spec (b : OrderBook) (sym : String) (o n : Option Order)
    {e : OrderBookEntry} (hb : b.order_book sym = some e) :
    ∃ t, (b.log_top_of_book sym o n).order_book sym = some { e with log := e.log ++ t } ∧
      (t = [] ∨ ∃ sd p v, t = [LogEntry.TopOfBook sd p v]) :=
  ⟨topTail o n, b.log_top_book_self sym o n hb, topTail_shape o n⟩

theorem OrderBook.top_book_none {b : OrderBook} {sym : String} (side : Side)
    (hb : b.order_book sym = none) : b.top side sym = none := by
  unfold OrderBook.top; rw [hb]

theorem OrderBook.top_buy_eq {b : OrderBook} {sym : String} {e : OrderBookEntry}
    (hb : b.order_book sym = some e) :
    b.top .Buy sym =
      match e.orders.getLast? with
      | none => none
      | some o =>
        if o.side = .Buy then
          some { o with volume := (total_volume e.orders.reverse o.user_id o.price).1,
                        order_id := (total_volume e.orders.reverse o.user_id o.price).2 }
        else none := by
  unfold OrderBook.top; rw [hb]

theorem OrderBook.top_sell_eq {b : OrderBook} {sym : String} {e : OrderBookEntry}
    (hb : b.order_book sym = some e) :
    b.top .Sell sym =
      match e.orders.head? with
      | none => none
      | some o =>
        if o.side = .Sell then
          some { o with volume := (total_volume e.orders o.user_id o.price).1,
                        order_id := (total_volume e.orders o.user_id o.price).2 }
        else none := by
  unfold OrderBook.top; rw [hb]

theorem OrderBook.top_congr {b' b : OrderBook} (side : Side) (S : String)
    (h : (b'.order_book S).map OrderBookEntry.orders =
      (b.order_book S).map OrderBookEntry.orders) :
    b'.top side S = b.top side S := by
  cases hb : b.order_book S with
  | none =>
    cases hb' : b'.order_book S with
    | none => rw [OrderBook.top_book_none side hb, OrderBook.top_book_none side hb']
    | some e' => rw [hb, hb'] at h; simp at h
  | some e =>
    cases hb' : b'.order_book S with
    | none => rw [hb, hb'] at h; simp at h
    | some e' =>
      rw [hb, hb'] at h
      simp only [Option.map_some'] at h
      injection h with h
      cases side with
      | Buy => rw [OrderBook.top_buy_eq hb, OrderBook.top_buy_eq hb', h]
      | Sell => rw [OrderBook.top_sell_eq hb, OrderBook.top_sell_eq hb', h]

theorem OrderBook.top_book_some {b : OrderBook} {side : Side} {sym : String} {t : Order}
    (h : b.top side sym = some t) : ∃ e, b.order_book sym = some e := by
  unfold OrderBook.top at h
  cases hb : b.order_book sym with
  | none => rw [hb] at h; cases h
  | some e => exact ⟨e, rfl⟩

theorem OrderBook.top_side_eq {b : OrderBook} {side : Side} {sym : String} {t : Order}
    (h : b.top side sym = some t) : t.side = side := by
  cases hb : b.order_book sym with
  | none => rw [OrderBook.top_book_none side hb] at h; cases h
  | some e =>
    cases side with
    | Buy =>
      rw [OrderBook.top_buy_eq hb] at h
      cases hl : e.orders.getLast? with
      | none => rw [hl] at h; cases h
      | some o =>
        rw [hl] at h
        dsimp only at h
        split_ifs at h with hside
        · injection h with h2
          rw [← h2]
          exact hside
    | Sell =>
      rw [OrderBook.top_sell_eq hb] at h
      cases hl : e.orders.head? with
      | none => rw [hl] at h; cases h
      | some o =>
        rw [hl] at h
        dsimp only at h
        split_ifs at h with hside
        · injection h with h2
          rw [← h2]
          exact hside

/-! ### Anatomy of `add` and `cancel` (proof scaffolding) -/

/-- The crossed-market test of `add`, lifted out (proof scaffolding). -/
def addCrossed (b : OrderBook) (sym : String) (order : Order) : Bool :=
  match b.top order.side sym, b.top order.side.not sym with
  | some t, some ot =>
    match t.side with
    | .Sell => decide (ot.price ≥ order.price)
    | .Buy => decide (order.price ≥ ot.price)
  | _, _ => false

/-- The state after the acknowledge/index/insert steps of a non-crossed
`add`, before the top-of-book notification (proof scaffolding). -/
def addAdmitState (b : OrderBook) (sym : String) (order : Order) : OrderBook :=
  { order_book := fun s =>
      if s = sym then
        some { orders := btInsert order ((b.order_book sym).getD OrderBookEntry.new).orders,
               log := ((b.order_book sym).getD OrderBookEntry.new).log ++
                 [.Acknowledge order.user_id order.order_id] }
      else b.order_book s,
    index := fun k =>
      if k = (order.user_id, order.order_id) then some (sym, order) else b.index k }

theorem OrderBook.add_eq (b : OrderBook) (sym : String) (order : Order) :
    b.add sym order =
      if addCrossed b sym order then
        b.setEntry sym
          { (b.order_book sym).getD OrderBookEntry.new with
              log := ((b.order_book sym).getD OrderBookEntry.new).log ++
                [.Reject order.user_id order.order_id] }
      else
        (addAdmitState b sym order).log_top_of_book sym (b.top order.side sym)
          ((addAdmitState b sym order).top order.side sym) := rfl

/-- The book with one index key removed (proof scaffolding). -/
def indexRem (b : OrderBook) (u i : Nat) : OrderBook :=
  { b with index := fun k => if k = (u, i) then none else b.index k }

/-- The state after the index-removal/order-removal/acknowledge steps of an
effective `cancel`, before the top-of-book notification (proof scaffolding). -/
def cancelRemState (b : OrderBook) (u i : Nat) (sym : String) (ord : Order) : OrderBook :=
  (indexRem b u i).setEntry sym
    { ((indexRem b u i).order_book sym).getD OrderBookEntry.new with
        orders := btRemove ord (((indexRem b u i).order_book sym).getD OrderBookEntry.new).orders,
        log := (((indexRem b u i).order_book sym).getD OrderBookEntry.new).log ++
          [.Acknowledge u i] }

theorem OrderBook.cancel_eq_none {b : OrderBook} {u i : Nat}
    (hidx : b.index (u, i) = none) : b.cancel u i = b := by
  unfold OrderBook.cancel
  rw [hidx]

theorem OrderBook.cancel_eq_some {b : OrderBook} {u i : Nat} {sym : String} {ord : Order}
    (hidx : b.index (u, i) = some (sym, ord)) :
    b.cancel u i =
      (cancelRemState b u i sym ord).log_top_of_book sym
        ((indexRem b u i).top ord.side sym)
        ((cancelRemState b u i sym ord).top ord.side sym) := by
  unfold OrderBook.cancel
  rw [hidx]
  rfl

theorem OrderBook.get_logs_eq {b : OrderBook} {S : String} {e : OrderBookEntry}
    (hb : b.order_book S = some e) : b.get_logs S = some e.log := by
  unfold OrderBook.get_logs
  rw [hb]

theorem OrderBook.get_logs_none {b : OrderBook} {S : String}
    (hb : b.order_book S = none) : b.get_logs S = none := by
  unfold OrderBook.get_logs
  rw [hb]

theorem indexRem_book (b : OrderBook) (u i : Nat) :
    (indexRem b u i).order_book = b.order_book := rfl

theorem indexRem_top (b : OrderBook) (u i : Nat) (side : Side) (sym : String) :
    (indexRem b u i).top side sym = b.top side sym := rfl

theorem OrderBook.cancel_index_self (b : OrderBook) (u i : Nat) :
    (b.cancel u i).index (u, i) = none := by
  cases hidx : b.index (u, i) with
  | none => rw [OrderBook.cancel_eq_none hidx]; exact hidx
  | some p =>
    obtain ⟨sym, ord⟩ := p
    rw [OrderBook.cancel_eq_some hidx, OrderBook.log_top_index]
    show (if ((u, i) : Nat × Nat) = (u, i) then none else b.index (u, i)) = none
    rw [if_pos rfl]

/-! ### Crossed-market rejection (claims C4 and C1) -/

theorem OrderBook.add_crossed_eq {b : OrderBook} {sym : String} {order t ot : Order}
    (ht : b.top order.side sym = some t) (hot : b.top order.side.not sym = some ot)
    (hcross : (match t.side with
      | Side.Sell => order.price ≤ ot.price
      | Side.Buy => ot.price ≤ order.price)) :
    b.add sym order = b.setEntry sym
      { (b.order_book sym).getD OrderBookEntry.new with
          log := ((b.order_book sym).getD OrderBookEntry.new).log ++
            [LogEntry.Reject order.user_id order.order_id] } := by
  unfold OrderBook.add
  rw [ht, hot]
  cases hts : t.side with
  | Sell =>
    rw [hts] at hcross
    dsimp only
    rw [hts, decide_eq_true hcross]
    simp
  | Buy =>
    rw [hts] at hcross
    dsimp only
    rw [hts, decide_eq_true hcross]
    simp

theorem OrderBook.add_crossed_spec {b : OrderBook} {sym : String} {order t ot : Order}
    (ht : b.top order.side sym = some t) (hot : b.top order.side.not sym = some ot)
    (hcross : (match t.side with
      | Side.Sell => order.price ≤ ot.price
      | Side.Buy => ot.price ≤ order.price)) :
    (b.add sym order).index = b.index ∧
    (∀ S, ((b.add sym order).order_book S).map OrderBookEntry.orders =
      (b.order_book S).map OrderBookEntry.orders) ∧
    (b.add sym order).get_logs sym =
      (b.get_logs sym).map (fun l => l ++ [LogEntry.Reject order.user_id order.order_id]) ∧
    (∀ S, S ≠ sym → (b.add sym order).order_book S = b.order_book S) ∧
    (∀ sd S, (b.add sym order).top sd S = b.top sd S) := by
  obtain ⟨e, hb⟩ := OrderBook.top_book_some ht
  have hadd := OrderBook.add_crossed_eq ht hot hcross
  have hgetD : (b.order_book sym).getD OrderBookEntry.new = e := by rw [hb]; rfl
  rw [hadd, hgetD]
  have horders : ∀ S,
      ((b.setEntry sym { e with log := e.log ++ [LogEntry.Reject order.user_id order.order_id] }).order_book S).map
        OrderBookEntry.orders = (b.order_book S).map OrderBookEntry.orders := by
    intro S
    by_cases hS : S = sym
    · subst hS
      rw [OrderBook.setEntry_book_self, hb]
      rfl
    · rw [OrderBook.setEntry_book_ne _ _ _ hS]
  refine ⟨rfl, horders, ?_, ?_, ?_⟩
  · rw [OrderBook.get_logs_eq (OrderBook.setEntry_book_self b sym _), OrderBook.get_logs_eq hb]
    rfl
  · intro S hS
    exact OrderBook.setEntry_book_ne _ _ _ hS
  · intro sd S
    exact OrderBook.top_congr sd S (horders S)

/-- C4: when both same-side and opposite-side tops exist before the call
and the crossing condition holds, `add` appends exactly one `Reject` to the
symbol's log and leaves every ordered set and the whole index unchanged
(no order is inserted). -/
theorem add_crossed_rejects_atomically (b : OrderBook) (sym : String) (order t ot : Order)
    (ht : b.top order.side sym = some t) (hot : b.top order.side.not sym = some ot)
    (hcross : (match t.side with
      | Side.Sell => order.price ≤ ot.price
      | Side.Buy => ot.price ≤ order.price)) :
    (b.add sym order).index = b.index ∧
    (∀ S, ((b.add sym order).order_book S).map OrderBookEntry.orders =
      (b.order_book S).map OrderBookEntry.orders) ∧
    (b.add sym order).get_logs sym =
      (b.get_logs sym).map (fun l => l ++ [LogEntry.Reject order.user_id order.order_id]) ∧
    (∀ S, S ≠ sym → (b.add sym order).order_book S = b.order_book S) :=
  ⟨(OrderBook.add_crossed_spec ht hot hcross).1,
   (OrderBook.add_crossed_spec ht hot hcross).2.1,
   (OrderBook.add_crossed_spec ht hot hcross).2.2.1,
   (OrderBook.add_crossed_spec ht hot hcross).2.2.2.1⟩

/-- Book used by the C4 witness: a Sell top at 100 and a Buy top at 90. -/
def c4Book : OrderBook :=
  (OrderBook.new.add "K" ⟨1, 1, 100, 10, .Sell⟩).add "K" ⟨2, 2, 90, 10, .Buy⟩

theorem add_crossed_rejects_atomically_witness :
    (c4Book.top (⟨3, 3, 100, 5, .Buy⟩ : Order).side "K" = some ⟨2, 2, 90, 10, .Buy⟩ ∧
     c4Book.top (⟨3, 3, 100, 5, .Buy⟩ : Order).side.not "K" = some ⟨1, 1, 100, 10, .Sell⟩) ∧
    (c4Book.add "K" ⟨3, 3, 100, 5, .Buy⟩).index = c4Book.index ∧
    (∀ S, ((c4Book.add "K" ⟨3, 3, 100, 5, .Buy⟩).order_book S).map OrderBookEntry.orders =
      (c4Book.order_book S).map OrderBookEntry.orders) ∧
    (c4Book.add "K" ⟨3, 3, 100, 5, .Buy⟩).get_logs "K" =
      (c4Book.get_logs "K").map (fun l => l ++ [LogEntry.Reject 3 3]) ∧
    (∀ S, S ≠ "K" → (c4Book.add "K" ⟨3, 3, 100, 5, .Buy⟩).order_book S = c4Book.order_book S) :=
  ⟨⟨by decide, by decide⟩,
   add_crossed_rejects_atomically c4Book "K" ⟨3, 3, 100, 5, .Buy⟩ ⟨2, 2, 90, 10, .Buy⟩
     ⟨1, 1, 100, 10, .Sell⟩ (by decide) (by decide) (by decide)⟩

/-- Book of the spec's end-to-end scenario after both `add` calls. -/
def c1Book : OrderBook :=
  (OrderBook.new.add "XYZ" ⟨1, 1, 100, 10, .Sell⟩).add "XYZ" ⟨2, 2, 100, 10, .Buy⟩

/-- C1 counterexample: in the spec's end-to-end scenario the second order
is NOT rejected — the crossed check requires a resting top on the incoming
order's own (Buy) side, which is empty — so the log is
[Ack(1,1), TopOfBook{Sell,100,10}, Ack(2,2), TopOfBook{Buy,100,10}],
not the claimed [Ack(1,1), TopOfBook{Sell,100,10}, Reject(2,2)]. -/
theorem crossed_empty_side_admitted :
    c1Book.get_logs "XYZ" =
      some [LogEntry.Acknowledge 1 1, LogEntry.TopOfBook (some .Sell) 100 10,
        LogEntry.Acknowledge 2 2, LogEntry.TopOfBook (some .Buy) 100 10] ∧
    c1Book.get_logs "XYZ" ≠
      some [LogEntry.Acknowledge 1 1, LogEntry.TopOfBook (some .Sell) 100 10,
        LogEntry.Reject 2 2] := by
  constructor
  · decide
  · decide

/-- C1 (amended): the end-to-end scenario acknowledges the second order and
logs [Ack(1,1), TopOfBook{Sell,100,10}, Ack(2,2), TopOfBook{Buy,100,10}];
the general crossed-rejection property holds only when, in addition to the
resting Sell top at price 100, the Buy side also has a resting top: then a
new Buy order at price 100 or higher is rejected with exactly one `Reject`
and the book is unchanged as observed through `top`. -/
theorem add_cross_behavior :
    (c1Book.get_logs "XYZ" =
      some [LogEntry.Acknowledge 1 1, LogEntry.TopOfBook (some .Sell) 100 10,
        LogEntry.Acknowledge 2 2, LogEntry.TopOfBook (some .Buy) 100 10]) ∧
    ∀ (b : OrderBook) (sym : String) (order st bt : Order),
      b.top .Sell sym = some st → st.price = 100 →
      b.top .Buy sym = some bt →
      order.side = .Buy → 100 ≤ order.price →
      (b.add sym order).get_logs sym =
        (b.get_logs sym).map (fun l => l ++ [LogEntry.Reject order.user_id order.order_id]) ∧
      (∀ sd S, (b.add sym order).top sd S = b.top sd S) := by
  constructor
  · decide
  · intro b sym order st bt hsell hsp hbuy hside hp
    have ht : b.top order.side sym = some bt := by rw [hside]; exact hbuy
    have hot : b.top order.side.not sym = some st := by rw [hside]; exact hsell
    have hcross : (match bt.side with
        | Side.Sell => order.price ≤ st.price
        | Side.Buy => st.price ≤ order.price) := by
      rw [OrderBook.top_side_eq hbuy]
      show st.price ≤ order.price
      omega
    exact ⟨(OrderBook.add_crossed_spec ht hot hcross).2.2.1,
      (OrderBook.add_crossed_spec ht hot hcross).2.2.2.2⟩

/-- Book used by the C1 witness: Sell top at 100, Buy top at 95. -/
def c1WBook : OrderBook :=
  (OrderBook.new.add "XYZ" ⟨1, 1, 100, 10, .Sell⟩).add "XYZ" ⟨2, 2, 95, 10, .Buy⟩

theorem add_cross_behavior_witness :
    (c1WBook.top .Sell "XYZ" = some ⟨1, 1, 100, 10, .Sell⟩ ∧
     c1WBook.top .Buy "XYZ" = some ⟨2, 2, 95, 10, .Buy⟩ ∧
     (⟨3, 3, 100, 5, .Buy⟩ : Order).side = Side.Buy ∧
     100 ≤ (⟨3, 3, 100, 5, .Buy⟩ : Order).price) ∧
    ((c1WBook.add "XYZ" ⟨3, 3, 100, 5, .Buy⟩).get_logs "XYZ" =
      (c1WBook.get_logs "XYZ").map (fun l => l ++ [LogEntry.Reject 3 3]) ∧
     (∀ sd S, (c1WBook.add "XYZ" ⟨3, 3, 100, 5, .Buy⟩).top sd S = c1WBook.top sd S)) :=
  ⟨⟨by decide, by decide, rfl, by decide⟩,
   (add_cross_behavior.2 c1WBook "XYZ" ⟨3, 3, 100, 5, .Buy⟩ ⟨1, 1, 100, 10, .Sell⟩
     ⟨2, 2, 95, 10, .Buy⟩ (by decide) rfl (by decide) rfl (by decide))⟩

/-! ### Frame properties (claim C9) -/

theorem addAdmitState_book_ne {S sym : String} (h : S ≠ sym) (b : OrderBook) (order : Order) :
    (addAdmitState b sym order).order_book S = b.order_book S := by
  simp [addAdmitState, h]

theorem addAdmitState_index_ne {k : Nat × Nat} (b : OrderBook) (sym : String) (order : Order)
    (h : k ≠ (order.user_id, order.order_id)) :
    (addAdmitState b sym order).index k = b.index k := by
  simp [addAdmitState, h]

/-- C9: `add` mutates at most its own symbol's entry and the
`(user_id, order_id)` index key of the added order; an effective `cancel`
of a key mapped to symbol S mutates at most S's entry and that one index
key (a missed cancel mutates nothing at all). -/
theorem add_cancel_frame (b : OrderBook) :
    (∀ (sym : String) (order : Order) (S : String), S ≠ sym →
      (b.add sym order).order_book S = b.order_book S) ∧
    (∀ (sym : String) (order : Order) (k : Nat × Nat), k ≠ (order.user_id, order.order_id) →
      (b.add sym order).index k = b.index k) ∧
    (∀ (u i : Nat) (S : String) (ord : Order), b.index (u, i) = some (S, ord) →
      ∀ S', S' ≠ S → (b.cancel u i).order_book S' = b.order_book S') ∧
    (∀ (u i : Nat) (k : Nat × Nat), k ≠ (u, i) → (b.cancel u i).index k = b.index k) := by
  refine ⟨?_, ?_, ?_, ?_⟩
  · intro sym order S hS
    rw [OrderBook.add_eq]
    split
    · exact OrderBook.setEntry_book_ne _ _ _ hS
    · rw [OrderBook.log_top_book_ne _ _ _ _ hS]
      exact addAdmitState_book_ne hS b order
  · intro sym order k hk
    rw [OrderBook.add_eq]
    split
    · rfl
    · rw [OrderBook.log_top_index]
      exact addAdmitState_index_ne b sym order hk
  · intro u i S ord hidx S' hS'
    rw [OrderBook.cancel_eq_some hidx]
    rw [OrderBook.log_top_book_ne _ _ _ _ hS']
    exact OrderBook.setEntry_book_ne _ _ _ hS'
  · intro u i k hk
    cases hidx : b.index (u, i) with
    | none => rw [OrderBook.cancel_eq_none hidx]
    | some p =>
      obtain ⟨S, ord⟩ := p
      rw [OrderBook.cancel_eq_some hidx, OrderBook.log_top_index]
      show (if k = (u, i) then none else b.index k) = b.index k
      rw [if_neg hk]

/-- Book used by the C9 witness. -/
def c9Book : OrderBook := OrderBook.new.add "A" ⟨1, 1, 10, 5, .Sell⟩

theorem add_cancel_frame_witness :
    (("B" : String) ≠ "A" ∧ ((9, 9) : Nat × Nat) ≠ (2, 2) ∧
      c9Book.index (1, 1) = some ("A", ⟨1, 1, 10, 5, .Sell⟩)) ∧
    (c9Book.add "A" ⟨2, 2, 20, 5, .Sell⟩).order_book "B" = c9Book.order_book "B" ∧
    (c9Book.add "A" ⟨2, 2, 20, 5, .Sell⟩).index (9, 9) = c9Book.index (9, 9) ∧
    (c9Book.cancel 1 1).order_book "B" = c9Book.order_book "B" ∧
    (c9Book.cancel 1 1).index (9, 9) = c9Book.index (9, 9) :=
  ⟨⟨by decide, by decide, by decide⟩,
   (add_cancel_frame c9Book).1 "A" ⟨2, 2, 20, 5, .Sell⟩ "B" (by decide),
   (add_cancel_frame c9Book).2.1 "A" ⟨2, 2, 20, 5, .Sell⟩ (9, 9) (by decide),
   (add_cancel_frame c9Book).2.2.1 1 1 "A" ⟨1, 1, 10, 5, .Sell⟩ (by decide) "B" (by decide),
   (add_cancel_frame c9Book).2.2.2 1 1 (9, 9) (by decide)⟩

/-! ### Cancel semantics (claim C7) -/

/-- C7: cancelling an unknown key is a silent, complete no-op; cancel is
idempotent; an effective cancel appends exactly one `Acknowledge` (followed
by at most one `TopOfBook` notification) to its symbol's log. -/
theorem cancel_idempotent_noop (b : OrderBook) (u i : Nat) :
    (b.index (u, i) = none → b.cancel u i = b) ∧
    (b.cancel u i).cancel u i = b.cancel u i ∧
    (∀ (S : String) (ord : Order), b.index (u, i) = some (S, ord) →
      ∃ t, (b.cancel u i).get_logs S =
        some (((b.order_book S).getD OrderBookEntry.new).log ++ LogEntry.Acknowledge u i :: t) ∧
        (t = [] ∨ ∃ sd p v, t = [LogEntry.TopOfBook sd p v])) := by
  refine ⟨fun h => OrderBook.cancel_eq_none h, ?_, ?_⟩
  · exact OrderBook.cancel_eq_none (OrderBook.cancel_index_self b u i)
  · intro S ord hidx
    rw [OrderBook.cancel_eq_some hidx]
    have hb2 : (cancelRemState b u i S ord).order_book S =
        some { orders := btRemove ord ((b.order_book S).getD OrderBookEntry.new).orders,
               log := ((b.order_book S).getD OrderBookEntry.new).log ++
                 [LogEntry.Acknowledge u i] } :=
      OrderBook.setEntry_book_self _ _ _
    obtain ⟨t, hbook, hshape⟩ :=
      OrderBook.log_top_log_spec (cancelRemState b u i S ord) S
        ((indexRem b u i).top ord.side S) ((cancelRemState b u i S ord).top ord.side S) hb2
    refine ⟨t, ?_, hshape⟩
    rw [OrderBook.get_logs_eq hbook]
    simp

/-- Book used by the C7 witness. -/
def c7Book : OrderBook := OrderBook.new.add "W" ⟨1, 1, 10, 5, .Sell⟩

theorem cancel_idempotent_noop_witness :
    (c7Book.index (1, 1) = some ("W", ⟨1, 1, 10, 5, .Sell⟩)) ∧
    (∃ t, (c7Book.cancel 1 1).get_logs "W" =
      some (((c7Book.order_book "W").getD OrderBookEntry.new).log ++
        LogEntry.Acknowledge 1 1 :: t) ∧
      (t = [] ∨ ∃ sd p v, t = [LogEntry.TopOfBook sd p v])) ∧
    (c7Book.cancel 1 1).cancel 1 1 = c7Book.cancel 1 1 :=
  ⟨by decide,
   (cancel_idempotent_noop c7Book 1 1).2.2 "W" ⟨1, 1, 10, 5, .Sell⟩ (by decide),
   (cancel_idempotent_noop c7Book 1 1).2.1⟩

/-! ### Top-of-book notification (claim C6) -/

/-- C6: the top-of-book notification appends exactly one
`TopOfBook{none,0,0}` when the new top is none, exactly one
`TopOfBook{new_top.side, price, volume}` when the old top is none or
differs from the new one, and nothing when they are equal; in particular
an effective cancel that empties the cancelled order's side ends its log
with `TopOfBook{none,0,0}`. -/
theorem log_top_of_book_cases (b : OrderBook) (sym : String) (e : OrderBookEntry)
    (old_top new_top : Option Order) (hb : b.order_book sym = some e) :
    (new_top = none →
      (b.log_top_of_book sym old_top new_top).order_book sym =
        some { e with log := e.log ++ [LogEntry.TopOfBook none 0 0] }) ∧
    (∀ nt, new_top = some nt → (old_top = none ∨ old_top ≠ new_top) →
      (b.log_top_of_book sym old_top new_top).order_book sym =
        some { e with log := e.log ++ [LogEntry.TopOfBook (some nt.side) nt.price nt.volume] }) ∧
    (∀ nt, new_top = some nt → old_top = new_top →
      b.log_top_of_book sym old_top new_top = b) ∧
    (∀ (u i : Nat) (S : String) (ord : Order), b.index (u, i) = some (S, ord) →
      (b.cancel u i).top ord.side S = none →
      ∃ l, (b.cancel u i).get_logs S = some (l ++ [LogEntry.TopOfBook none 0 0])) := by
  refine ⟨?_, ?_, ?_, ?_⟩
  · intro h
    subst h
    exact b.log_top_book_self sym old_top none hb
  · intro nt h hchange
    subst h
    have htail : topTail old_top (some nt) =
        [LogEntry.TopOfBook (some nt.side) nt.price nt.volume] := by
      cases old_top with
      | none => rfl
      | some ot =>
        rcases hchange with h | h
        · simp at h
        · have hne : ot ≠ nt := fun he => h (by rw [he])
          simp [topTail, hne]
    rw [b.log_top_book_self sym old_top (some nt) hb, htail]
  · intro nt h1 h2
    subst h1
    subst h2
    unfold OrderBook.log_top_of_book
    rw [hb]
    simp
  · intro u i S ord hidx htop
    rw [OrderBook.cancel_eq_some hidx] at htop ⊢
    have hb2 : (cancelRemState b u i S ord).order_book S =
        some { orders := btRemove ord ((b.order_book S).getD OrderBookEntry.new).orders,
               log := ((b.order_book S).getD OrderBookEntry.new).log ++
                 [LogEntry.Acknowledge u i] } :=
      OrderBook.setEntry_book_self _ _ _
    have hnew : (cancelRemState b u i S ord).top ord.side S = none := by
      rw [← OrderBook.top_congr ord.side S
        ((cancelRemState b u i S ord).log_top_book_orders S
          ((indexRem b u i).top ord.side S) ((cancelRemState b u i S ord).top ord.side S) S)]
      exact htop
    rw [hnew]
    rw [OrderBook.get_logs_eq
      ((cancelRemState b u i S ord).log_top_book_self S ((indexRem b u i).top ord.side S) none hb2)]
    exact ⟨((b.order_book S).getD OrderBookEntry.new).log ++ [LogEntry.Acknowledge u i],
      by simp [topTail]⟩

/-- Book used by the C6 witness. -/
def c6Book : OrderBook := OrderBook.new.add "Z" ⟨1, 1, 10, 5, .Sell⟩

/-- Entry of `c6Book` under "Z". -/
def c6Entry : OrderBookEntry :=
  ⟨[⟨1, 1, 10, 5, .Sell⟩], [.Acknowledge 1 1, .TopOfBook (some .Sell) 10 5]⟩

theorem log_top_of_book_cases_witness :
    (c6Book.order_book "Z" = some c6Entry ∧
     c6Book.index (1, 1) = some ("Z", ⟨1, 1, 10, 5, .Sell⟩) ∧
     (c6Book.cancel 1 1).top (⟨1, 1, 10, 5, .Sell⟩ : Order).side "Z" = none) ∧
    (c6Book.log_top_of_book "Z" none none).order_book "Z" =
      some { c6Entry with log := c6Entry.log ++ [LogEntry.TopOfBook none 0 0] } ∧
    (∃ l, (c6Book.cancel 1 1).get_logs "Z" = some (l ++ [LogEntry.TopOfBook none 0 0])) :=
  ⟨⟨by decide, by decide, by decide⟩,
   (log_top_of_book_cases c6Book "Z" c6Entry none none (by decide)).1 rfl,
   (log_top_of_book_cases c6Book "Z" c6Entry none none (by decide)).2.2.2 1 1 "Z"
     ⟨1, 1, 10, 5, .Sell⟩ (by decide) (by decide)⟩

/-! ### `top` against the spec description (claim C5) -/

/-- Minimum of a list of ids, seeded from its head (0 on the empty list,
which `topSpec` never uses). -/
def runMin : List Nat → Nat
  | [] => 0
  | x :: xs => xs.foldl min x

/-- Spec-side description of `top` (§4.5 of the spec): none for an unknown
symbol, an empty set, or an extreme element of the wrong side; otherwise
the extreme element (last of the set for Buy, first for Sell) with volume
replaced by the sum over the consecutive same-user same-price run scanned
from the extreme inward, and order id replaced by the run's minimum. -/
def topSpecList (l : List Order) (side : Side) : Option Order :=
  match l.head? with
  | none => none
  | some o =>
    if o.side = side then
      some { o with
        volume := ((l.takeWhile fun x =>
          x.user_id == o.user_id && x.price == o.price).map Order.volume).sum,
        order_id := runMin ((l.takeWhile fun x =>
          x.user_id == o.user_id && x.price == o.price).map Order.order_id) }
    else none

/-- Spec-side description of `top`, over the whole book state. -/
def topSpec (b : OrderBook) (side : Side) (symbol : String) : Option Order :=
  match b.order_book symbol with
  | none => none
  | some e =>
    topSpecList
      (match side with
       | .Sell => e.orders
       | .Buy => e.orders.reverse) side

theorem foldl_pair_split (L : List Order) :
    ∀ a m : Nat,
      L.foldl (fun acc x =>
        (acc.1 + x.volume, if x.order_id < acc.2 then x.order_id else acc.2)) (a, m) =
      (L.foldl (fun acc x => acc + x.volume) a,
       L.foldl (fun acc x => if x.order_id < acc then x.order_id else acc) m) := by
  induction L with
  | nil => intro a m; rfl
  | cons x xs ih =>
    intro a m
    simp only [List.foldl_cons]
    exact ih _ _

theorem foldl_add_volume (L : List Order) :
    ∀ a : Nat, L.foldl (fun acc x => acc + x.volume) a = a + (L.map Order.volume).sum := by
  induction L with
  | nil => intro a; simp
  | cons x xs ih =>
    intro a
    simp only [List.foldl_cons, List.map_cons, List.sum_cons]
    rw [ih]
    omega

theorem foldl_minIf_eq_min (L : List Order) :
    ∀ m : Nat,
      L.foldl (fun acc x => if x.order_id < acc then x.order_id else acc) m =
      L.foldl (fun acc x => min acc x.order_id) m := by
  induction L with
  | nil => intro m; rfl
  | cons x xs ih =>
    intro m
    simp only [List.foldl_cons]
    rw [ih, show (if x.order_id < m then x.order_id else m) = min m x.order_id from by
      split_ifs <;> omega]

theorem total_volume_spec (l : List Order) (o : Order) (hh : l.head? = some o)
    (hb : o.order_id ≤ usizeMax) :
    total_volume l o.user_id o.price =
      (((l.takeWhile fun x => x.user_id == o.user_id && x.price == o.price).map
        Order.volume).sum,
       runMin ((l.takeWhile fun x => x.user_id == o.user_id && x.price == o.price).map
        Order.order_id)) := by
  cases l with
  | nil => cases hh
  | cons x xs =>
    have hx : x = o := by simpa using hh
    subst hx
    have hpo : (x.user_id == x.user_id && x.price == x.price) = true := by simp
    unfold total_volume
    rw [List.takeWhile_cons, hpo]
    simp only [if_true]
    rw [foldl_pair_split]
    have hsum : List.foldl (fun acc y => acc + y.volume) 0
        (x :: List.takeWhile (fun y => y.user_id == x.user_id && y.price == x.price) xs) =
        (List.map Order.volume
          (x :: List.takeWhile (fun y => y.user_id == x.user_id && y.price == x.price) xs)).sum := by
      rw [foldl_add_volume, Nat.zero_add]
    have hmin : List.foldl (fun acc y => if y.order_id < acc then y.order_id else acc) usizeMax
        (x :: List.takeWhile (fun y => y.user_id == x.user_id && y.price == x.price) xs) =
        runMin (List.map Order.order_id
          (x :: List.takeWhile (fun y => y.user_id == x.user_id && y.price == x.price) xs)) := by
      rw [foldl_minIf_eq_min]
      simp only [List.foldl_cons, List.map_cons]
      rw [Nat.min_eq_right hb, runMin, List.foldl_map]
    rw [hsum, hmin]

theorem head?_mem {α : Type} {l : List α} {a : α} (h : l.head? = some a) : a ∈ l := by
  cases l with
  | nil => cases h
  | cons x xs =>
    have hx : x = a := by simpa using h
    subst hx
    exact List.mem_cons_self _ _

/-- C5: `top` returns none for an unknown symbol, an empty ordered set, or
an extreme element of the wrong side; otherwise it returns the extreme
order with its volume summed and its order id minimised over the
consecutive same-user same-price run scanned from the extreme inward
(stated against the spec-side description `topSpec`; order ids are usize
values, i.e. at most `usize::MAX`). -/
theorem top_eq_topSpec (b : OrderBook) (side : Side) (symbol : String)
    (hbound : ∀ o ∈ b.bookOrders symbol, o.order_id ≤ usizeMax) :
    b.top side symbol = topSpec b side symbol := by
  cases hb : b.order_book symbol with
  | none =>
    rw [OrderBook.top_book_none side hb]
    unfold topSpec
    rw [hb]
  | some e =>
    have hbound' : ∀ o ∈ e.orders, o.order_id ≤ usizeMax := by
      intro o ho
      apply hbound
      unfold OrderBook.bookOrders
      rw [hb]
      exact ho
    unfold topSpec
    rw [hb]
    cases side with
    | Sell =>
      rw [OrderBook.top_sell_eq hb]
      dsimp only
      unfold topSpecList
      cases hh : e.orders.head? with
      | none => rfl
      | some o =>
        dsimp only
        split_ifs with hside
        · rw [total_volume_spec e.orders o hh (hbound' o (head?_mem hh))]
        · rfl
    | Buy =>
      rw [OrderBook.top_buy_eq hb]
      dsimp only
      unfold topSpecList
      rw [← List.head?_reverse]
      cases hh : e.orders.reverse.head? with
      | none => rfl
      | some o =>
        dsimp only
        split_ifs with hside
        · rw [total_volume_spec e.orders.reverse o hh
            (hbound' o (List.mem_reverse.mp (head?_mem hh)))]
        · rfl

/-- Book used by the C5 witness: three same-user same-price Buy orders
with volumes 5, 7, 3 and order ids 10, 11, 12. -/
def c5Book : OrderBook :=
  ((OrderBook.new.add "N" ⟨7, 10, 50, 5, .Buy⟩).add "N" ⟨7, 11, 50, 7, .Buy⟩).add "N"
    ⟨7, 12, 50, 3, .Buy⟩

theorem top_eq_topSpec_witness :
    (∀ o ∈ c5Book.bookOrders "N", o.order_id ≤ usizeMax) ∧
    c5Book.top .Buy "N" = some ⟨7, 10, 50, 15, .Buy⟩ :=
  ⟨by decide, (top_eq_topSpec c5Book .Buy "N" (by decide)).trans (by decide)⟩

/-! ### Index/book consistency invariant (claim C2) -/

/-- Every symbol's ordered set is strictly sorted by the book comparison. -/
def InvSorted (b : OrderBook) : Prop :=
  ∀ S e, b.order_book S = some e → SortedBook e.orders

/-- Every index entry is stored under its own order's key. -/
def InvIndexKey (b : OrderBook) : Prop :=
  ∀ u i S o, b.index (u, i) = some (S, o) → o.user_id = u ∧ o.order_id = i

/-- The C2 invariant: an order is in symbol S's ordered set iff the index
maps its key to (S, the identical snapshot). -/
def Consistent (b : OrderBook) : Prop :=
  ∀ (S : String) (o : Order),
    (∃ e, b.order_book S = some e ∧ o ∈ e.orders) ↔
    b.index (o.user_id, o.order_id) = some (S, o)

def BookInv (b : OrderBook) : Prop := InvSorted b ∧ InvIndexKey b ∧ Consistent b

/-- States reachable from a fresh book by `add`/`cancel` calls in which
every added order has a key distinct from every live order's key and is
`cmp`-distinct from every live order of its own symbol (the amended C2
admission discipline). -/
inductive Reachable : OrderBook → Prop
  | new : Reachable OrderBook.new
  | add {b : OrderBook} (symbol : String) (order : Order) :
      Reachable b →
      (∀ S e, b.order_book S = some e → ∀ o' ∈ e.orders,
        (o'.user_id, o'.order_id) ≠ (order.user_id, order.order_id)) →
      (∀ e, b.order_book symbol = some e → ∀ o' ∈ e.orders, order.cmp o' ≠ .eq) →
      Reachable (b.add symbol order)
  | cancel {b : OrderBook} (u i : Nat) : Reachable b → Reachable (b.cancel u i)

theorem inv_new : BookInv OrderBook.new := by
  refine ⟨?_, ?_, ?_⟩
  · intro S e h
    exact absurd h (by simp [OrderBook.new])
  · intro u i S o h
    exact absurd h (by simp [OrderBook.new])
  · intro S o
    constructor
    · rintro ⟨e, he, -⟩
      exact absurd he (by simp [OrderBook.new])
    · intro h
      exact absurd h (by simp [OrderBook.new])

theorem inv_congr {b' b : OrderBook}
    (hbook : ∀ S, (b'.order_book S).map OrderBookEntry.orders =
      (b.order_book S).map OrderBookEntry.orders)
    (hidx : b'.index = b.index) (h : BookInv b) : BookInv b' := by
  obtain ⟨hs, hk, hc⟩ := h
  refine ⟨?_, ?_, ?_⟩
  · intro S e he
    have hmap := hbook S
    rw [he] at hmap
    cases hb : b.order_book S with
    | none => rw [hb] at hmap; simp at hmap
    | some e0 =>
      rw [hb] at hmap
      simp only [Option.map_some'] at hmap
      injection hmap with hmap
      rw [SortedBook, hmap]
      exact hs S e0 hb
  · intro u i S o h'
    rw [hidx] at h'
    exact hk u i S o h'
  · intro S o
    rw [hidx]
    constructor
    · rintro ⟨e, he, ho⟩
      apply (hc S o).mp
      have hmap := hbook S
      rw [he] at hmap
      cases hb : b.order_book S with
      | none => rw [hb] at hmap; simp at hmap
      | some e0 =>
        rw [hb] at hmap
        simp only [Option.map_some'] at hmap
        injection hmap with hmap
        exact ⟨e0, rfl, by rw [← hmap]; exact ho⟩
    · intro h'
      obtain ⟨e0, hb, ho⟩ := (hc S o).mpr h'
      have hmap := hbook S
      rw [hb] at hmap
      cases hb' : b'.order_book S with
      | none => rw [hb'] at hmap; simp at hmap
      | some e' =>
        rw [hb'] at hmap
        simp only [Option.map_some'] at hmap
        injection hmap with hmap
        exact ⟨e', rfl, by rw [hmap]; exact ho⟩

theorem addCrossed_true_tops {b : OrderBook} {sym : String} {order : Order}
    (h : addCrossed b sym order = true) :
    (∃ t, b.top order.side sym = some t) ∧ ∃ ot, b.top order.side.not sym = some ot := by
  unfold addCrossed at h
  cases ht : b.top order.side sym with
  | none =>
    cases hot : b.top order.side.not sym <;> rw [ht, hot] at h <;> simp at h
  | some t =>
    cases hot : b.top order.side.not sym with
    | none => rw [ht, hot] at h; simp at h
    | some ot => exact ⟨⟨t, rfl⟩, ⟨ot, rfl⟩⟩

theorem addAdmitState_book (b : OrderBook) (sym : String) (order : Order) (S : String) :
    (addAdmitState b sym order).order_book S =
      if S = sym then
        some { orders := btInsert order ((b.order_book sym).getD OrderBookEntry.new).orders,
               log := ((b.order_book sym).getD OrderBookEntry.new).log ++
                 [.Acknowledge order.user_id order.order_id] }
      else b.order_book S := rfl

theorem addAdmitState_index (b : OrderBook) (sym : String) (order : Order) (k : Nat × Nat) :
    (addAdmitState b sym order).index k =
      if k = (order.user_id, order.order_id) then some (sym, order) else b.index k := rfl

theorem cancelRemState_book (b : OrderBook) (u i : Nat) (sym : String) (ord : Order)
    (S : String) :
    (cancelRemState b u i sym ord).order_book S =
      if S = sym then
        some { orders := btRemove ord ((b.order_book sym).getD OrderBookEntry.new).orders,
               log := ((b.order_book sym).getD OrderBookEntry.new).log ++ [.Acknowledge u i] }
      else b.order_book S := rfl

theorem cancelRemState_index (b : OrderBook) (u i : Nat) (sym : String) (ord : Order)
    (k : Nat × Nat) :
    (cancelRemState b u i sym ord).index k =
      if k = (u, i) then none else b.index k := rfl

theorem inv_addAdmit {b : OrderBook} (symbol : String) (order : Order)
    (hinv : BookInv b)
    (hkey : ∀ S e, b.order_book S = some e → ∀ o' ∈ e.orders,
      (o'.user_id, o'.order_id) ≠ (order.user_id, order.order_id))
    (hdeq : ∀ e, b.order_book symbol = some e → ∀ o' ∈ e.orders, order.cmp o' ≠ .eq) :
    BookInv (addAdmitState b symbol order) := by
  obtain ⟨hs, hk, hc⟩ := hinv
  have hsD : SortedBook ((b.order_book symbol).getD OrderBookEntry.new).orders := by
    cases hb : b.order_book symbol with
    | none => exact List.Pairwise.nil
    | some e => exact hs symbol e hb
  have hdeqD : ∀ x ∈ ((b.order_book symbol).getD OrderBookEntry.new).orders,
      order.cmp x ≠ .eq := by
    cases hb : b.order_book symbol with
    | none => intro x hx; exact absurd hx (by simp [OrderBookEntry.new])
    | some e => exact hdeq e hb
  refine ⟨?_, ?_, ?_⟩
  · intro S e' he'
    rw [addAdmitState_book] at he'
    split_ifs at he' with hS
    · injection he' with he'
      rw [SortedBook, ← he']
      exact btInsert_sorted hsD
    · exact hs S e' he'
  · intro u i S o h'
    rw [addAdmitState_index] at h'
    split_ifs at h' with hki
    · injection h' with h'
      injection h' with hS hOrd
      injection hki with hu hi
      rw [← hOrd]
      exact ⟨hu.symm, hi.symm⟩
    · exact hk u i S o h'
  · intro S o
    rw [addAdmitState_index]
    constructor
    · rintro ⟨e', he', ho⟩
      rw [addAdmitState_book] at he'
      split_ifs at he' with hS
      · injection he' with he'
        rw [← he'] at ho
        rcases btInsert_subset ho with rfl | hmem
        · rw [if_pos rfl]
          rw [hS]
        · cases hb : b.order_book symbol with
          | none =>
            rw [hb] at hmem
            exact absurd hmem (by simp [OrderBookEntry.new])
          | some e0 =>
            rw [hb] at hmem
            have hb' : b.order_book S = some e0 := by rw [hS]; exact hb
            have hio := (hc S o).mp ⟨e0, hb', hmem⟩
            rw [if_neg (hkey S e0 hb' o hmem)]
            exact hio
      · have hio := (hc S o).mp ⟨e', he', ho⟩
        rw [if_neg (hkey S e' he' o ho)]
        exact hio
    · intro h'
      split_ifs at h' with hki
      · injection h' with h'
        injection h' with hS hOrd
        subst hS
        subst hOrd
        refine ⟨{ orders := btInsert order ((b.order_book symbol).getD OrderBookEntry.new).orders,
                  log := ((b.order_book symbol).getD OrderBookEntry.new).log ++
                    [.Acknowledge order.user_id order.order_id] }, ?_, ?_⟩
        · rw [addAdmitState_book, if_pos rfl]
        · exact btInsert_self_mem hdeqD
      · obtain ⟨e0, hb0, ho0⟩ := (hc S o).mpr h'
        by_cases hS : S = symbol
        · subst hS
          refine ⟨{ orders := btInsert order ((b.order_book S).getD OrderBookEntry.new).orders,
                    log := ((b.order_book S).getD OrderBookEntry.new).log ++
                      [.Acknowledge order.user_id order.order_id] }, ?_, ?_⟩
          · rw [addAdmitState_book, if_pos rfl]
          · show o ∈ btInsert order ((b.order_book S).getD OrderBookEntry.new).orders
            have heD : (b.order_book S).getD OrderBookEntry.new = e0 := by rw [hb0]; rfl
            rw [heD]
            exact btInsert_mem_of_mem ho0
        · refine ⟨e0, ?_, ho0⟩
          rw [addAdmitState_book, if_neg hS]
          exact hb0

theorem inv_add {b : OrderBook} (symbol : String) (order : Order)
    (hinv : BookInv b)
    (hkey : ∀ S e, b.order_book S = some e → ∀ o' ∈ e.orders,
      (o'.user_id, o'.order_id) ≠ (order.user_id, order.order_id))
    (hdeq : ∀ e, b.order_book symbol = some e → ∀ o' ∈ e.orders, order.cmp o' ≠ .eq) :
    BookInv (b.add symbol order) := by
  rw [OrderBook.add_eq]
  split
  · rename_i hcr
    obtain ⟨⟨t, ht⟩, ⟨ot, hot⟩⟩ := addCrossed_true_tops hcr
    obtain ⟨e, hb⟩ := OrderBook.top_book_some ht
    refine inv_congr ?_ ?_ hinv
    · intro S
      by_cases hS : S = symbol
      · subst hS
        rw [OrderBook.setEntry_book_self, hb]
        rfl
      · rw [OrderBook.setEntry_book_ne _ _ _ hS]
    · rfl
  · exact inv_congr (fun S => OrderBook.log_top_book_orders _ _ _ _ S)
      (OrderBook.log_top_index _ _ _ _) (inv_addAdmit symbol order hinv hkey hdeq)

theorem inv_cancel {b : OrderBook} (u i : Nat) (hinv : BookInv b) : BookInv (b.cancel u i) := by
  obtain ⟨hs, hk, hc⟩ := hinv
  cases hidx : b.index (u, i) with
  | none =>
    rw [OrderBook.cancel_eq_none hidx]
    exact ⟨hs, hk, hc⟩
  | some p =>
    obtain ⟨S₀, ord⟩ := p
    obtain ⟨hu0, hi0⟩ := hk u i S₀ ord hidx
    obtain ⟨e0, hb0, hmem0⟩ : ∃ e, b.order_book S₀ = some e ∧ ord ∈ e.orders := by
      apply (hc S₀ ord).mpr
      rw [hu0, hi0]
      exact hidx
    have heD : (b.order_book S₀).getD OrderBookEntry.new = e0 := by rw [hb0]; rfl
    rw [OrderBook.cancel_eq_some hidx]
    apply inv_congr (fun S => OrderBook.log_top_book_orders _ _ _ _ S)
      (OrderBook.log_top_index _ _ _ _)
    refine ⟨?_, ?_, ?_⟩
    · intro S e' he'
      rw [cancelRemState_book] at he'
      split_ifs at he' with hS
      · injection he' with he'
        rw [SortedBook, ← he']
        show List.Pairwise _ (btRemove ord ((b.order_book S₀).getD OrderBookEntry.new).orders)
        rw [heD]
        exact btRemove_sorted (hs S₀ e0 hb0)
      · exact hs S e' he'
    · intro u' i' S o h'
      rw [cancelRemState_index] at h'
      split_ifs at h' with h1
      exact hk u' i' S o h'
    · intro S o
      rw [cancelRemState_index]
      constructor
      · rintro ⟨e', he', ho⟩
        rw [cancelRemState_book] at he'
        split_ifs at he' with hS
        · injection he' with he'
          rw [← he'] at ho
          have ho2 : o ∈ btRemove ord e0.orders := by
            show o ∈ btRemove ord e0.orders
            rw [← heD]
            exact ho
          have homem : o ∈ e0.orders := btRemove_subset ho2
          have hb' : b.order_book S = some e0 := by rw [hS]; exact hb0
          have hio := (hc S o).mp ⟨e0, hb', homem⟩
          have hko : (o.user_id, o.order_id) ≠ (u, i) := by
            intro hE
            rw [hE, hidx] at hio
            injection hio with hio
            injection hio with hS2 ho2'
            subst ho2'
            exact btRemove_self_not_mem (hs S₀ e0 hb0) ho2
          rw [if_neg hko]
          exact hio
        · have hio := (hc S o).mp ⟨e', he', ho⟩
          have hko : (o.user_id, o.order_id) ≠ (u, i) := by
            intro hE
            rw [hE, hidx] at hio
            injection hio with hio
            injection hio with hS2 ho2'
            exact hS hS2.symm
          rw [if_neg hko]
          exact hio
      · intro h'
        split_ifs at h' with hko
        obtain ⟨e1, hb1, ho1⟩ := (hc S o).mpr h'
        by_cases hS : S = S₀
        · subst hS
          have he1 : e1 = e0 := by
            rw [hb0] at hb1
            injection hb1 with hb1
            exact hb1.symm
          subst he1
          have hne : o ≠ ord := by
            intro hE
            subst hE
            exact hko (by rw [hu0, hi0])
          have hcne : ord.cmp o ≠ .eq :=
            sortedBook_cmp_ne (hs S e1 hb0) hmem0 ho1 (fun hE => hne hE.symm)
          refine ⟨{ orders := btRemove ord ((b.order_book S).getD OrderBookEntry.new).orders,
                    log := ((b.order_book S).getD OrderBookEntry.new).log ++
                      [.Acknowledge u i] }, ?_, ?_⟩
          · rw [cancelRemState_book, if_pos rfl]
          · show o ∈ btRemove ord ((b.order_book S).getD OrderBookEntry.new).orders
            rw [heD]
            exact btRemove_mem_of_ne ho1 hcne
        · refine ⟨e1, ?_, ho1⟩
          rw [cancelRemState_book, if_neg hS]
          exact hb1

theorem inv_reachable {b : OrderBook} (h : Reachable b) : BookInv b := by
  induction h with
  | new => exact inv_new
  | add symbol order hr hkey hdeq ih => exact inv_add symbol order ih hkey hdeq
  | cancel u i hr ih => exact inv_cancel u i ih

/-- Book of the C2 counterexample: two live orders with pairwise distinct
(user_id, order_id) keys and distinct full field tuples, differing only in
user_id. -/
def c2CexBook : OrderBook :=
  (OrderBook.new.add "S" ⟨1, 1, 10, 5, .Buy⟩).add "S" ⟨2, 1, 10, 5, .Buy⟩

/-- C2 counterexample: after adding orders (1,1,10,5,Buy) and
(2,1,10,5,Buy) — distinct keys, distinct tuples — the index maps (2,1) to
the second order, yet the ordered set holds only the first one:
`BTreeSet::insert` dropped the second order because the comparison ignores
`user_id`, so the claimed iff fails. -/
theorem index_book_desync :
    c2CexBook.index (2, 1) = some ("S", ⟨2, 1, 10, 5, .Buy⟩) ∧
    (c2CexBook.order_book "S").map OrderBookEntry.orders = some [⟨1, 1, 10, 5, .Buy⟩] ∧
    (⟨2, 1, 10, 5, .Buy⟩ : Order) ∉ [(⟨1, 1, 10, 5, .Buy⟩ : Order)] ∧
    ((1, 1) : Nat × Nat) ≠ (2, 1) ∧
    (⟨1, 1, 10, 5, .Buy⟩ : Order) ≠ ⟨2, 1, 10, 5, .Buy⟩ :=
  ⟨by decide, by decide, by decide, by decide, by decide⟩

/-- C2 (amended): for every state reachable from a fresh book by `add` and
`cancel` calls in which each added order's (user_id, order_id) key differs
from every concurrently live order's key AND its (order_id, price, volume,
side) projection differs from that of every live order of the same symbol
(i.e. it is `cmp`-distinct — distinct full tuples are not enough, since
the comparison ignores `user_id`), an order o is in the ordered set of
symbol S iff the index maps (o.user_id, o.order_id) to (S, o). -/
theorem reachable_index_book_consistent {b : OrderBook} (h : Reachable b) :
    ∀ (S : String) (o : Order),
      (∃ e, b.order_book S = some e ∧ o ∈ e.orders) ↔
      b.index (o.user_id, o.order_id) = some (S, o) :=
  fun S o => (inv_reachable h).2.2 S o

/-- Order and book used by the C2 witness. -/
def c2Order : Order := ⟨1, 1, 10, 5, .Sell⟩

def c2Book : OrderBook := OrderBook.new.add "A" c2Order

theorem reachable_index_book_consistent_witness :
    Reachable c2Book ∧
    ((∃ e, c2Book.order_book "A" = some e ∧ c2Order ∈ e.orders) ↔
      c2Book.index (1, 1) = some ("A", c2Order)) :=
  have hreach : Reachable c2Book :=
    Reachable.add "A" c2Order Reachable.new
      (fun S e h => absurd h (by simp [OrderBook.new]))
      (fun e h => absurd h (by simp [OrderBook.new]))
  ⟨hreach, reachable_index_book_consistent hreach "A" c2Order⟩
